import Mathlib

/-!
# pulsar-beam: topic registry and tenant-scoped authorization

A shallow embedding of `src/db/in-memory.go` (the in-memory topic registry)
and of the topic handlers and authorization functions of
`src/route/handlers.go`, followed by theorems about them.

Conventions of the embedding
* A Go `string` is a list of characters (`Str`).  The separators the code
  splits on (`/`, `,`, `-`) are single ASCII characters.
* A Go `map[string]model.TopicConfig` is an association list with unique keys
  (`AList`): lookup, insertion (overwriting) and deletion are those of a map.
* A Go `error` is `Option Err` (`none` is `nil`).
* A method with a pointer receiver and a pointer argument returns, besides its
  Go results, the handler and the pointed-to record as they are after the call.
* `time.Now()` is an argument (`now`) of the operation that reads the clock.
* A slice of pointers returned by a method is the list of the records read
  through the pointers once the method has returned.
* A handler returns the calls it makes on the `http.ResponseWriter`, in order,
  and the registry after the request; what it reads of the request (route
  variable, decoded body, `injectedSubs` header) is its argument.
-/

namespace PulsarBeam

/-! ## Data model -/

/-- A Go string. -/
abbrev Str := List Char

/-- A Go `time.Time`, as a clock reading. -/
abbrev Time := Nat

/-- Modelled from the spec: `model.WebhookConfig` (a "destination descriptor");
its declaration lives in package `model`, which is not among the sources. -/
abbrev WebhookConfig := Str

/-- Modelled from the spec: `model.TopicConfig`, the managed entity (spec §3);
its declaration lives in package `model`.  The field names are the ones the
code of `in-memory.go` and `handlers.go` reads and writes. -/
structure TopicConfig where
  TopicFullName : Str
  PulsarURL : Str
  Token : Str
  Tenant : Str
  Notes : Str
  TopicStatus : Int
  Webhooks : List WebhookConfig
  Key : Str
  CreatedAt : Time
  UpdatedAt : Time
deriving DecidableEq, Repr

/-- The zero value `model.TopicConfig{}`. -/
def TopicConfig.zero : TopicConfig :=
  { TopicFullName := [], PulsarURL := [], Token := [], Tenant := [], Notes := [],
    TopicStatus := 0, Webhooks := [], Key := [], CreatedAt := 0, UpdatedAt := 0 }

/-- Go error values produced by the registry.  `DocAlreadyExisted` and
`DocNotFound` stand for `errors.New(DocAlreadyExisted)` and
`errors.New(DocNotFound)`; `invalid` is any other error, with its message (an
error of the key derivation, of the decoding or validation of a request, or one
built by a handler). -/
inductive Err where
  | DocAlreadyExisted
  | DocNotFound
  | invalid (msg : Str)
deriving DecidableEq, Repr

/-- The type of `model.GetKeyFromNames(topicFullName, pulsarURL)`: it returns a
key and an error.  The function itself is in package `model`; the registry is
parameterised by it. -/
abbrev KeyFn := Str → Str → Str × Option Err

/-- The Go type `map[string]model.TopicConfig`. -/
abbrev Topics := AList (fun _ : Str => TopicConfig)

/-- The struct `InMemoryHandler` (the logger carries no state of interest). -/
structure InMemoryHandler where
  topics : Topics

/-- What a mutating registry method leaves behind: the returned `(string, error)`
pair, the record behind the `*model.TopicConfig` argument, and the handler. -/
structure Mutation where
  key : Str
  err : Option Err
  cfg : TopicConfig
  s : InMemoryHandler

/-! ## `src/db/in-memory.go` -/

/-- `NewInMemoryHandler` / `Init`: an empty map. -/
def NewInMemoryHandler : InMemoryHandler :=
  { topics := ∅ }

/-- Modelled from the spec: the package-private helper `getKey(topicCfg)` of
package `db` (not among the sources); the key is "derived deterministically
from (topicFullName, clusterURL)" by the shared key deriver. -/
def getKey (GetKeyFromNames : KeyFn) (topicCfg : TopicConfig) : Str × Option Err :=
  GetKeyFromNames topicCfg.TopicFullName topicCfg.PulsarURL

/-- `func (s *InMemoryHandler) Create(topicCfg *model.TopicConfig) (string, error)`. -/
def Create (GetKeyFromNames : KeyFn) (now : Time) (s : InMemoryHandler)
    (topicCfg : TopicConfig) : Mutation :=
  match getKey GetKeyFromNames topicCfg with
  | (key, some err) => { key := key, err := some err, cfg := topicCfg, s := s }
  | (key, none) =>
    match s.topics.lookup key with
    | some _ => { key := key, err := some Err.DocAlreadyExisted, cfg := topicCfg, s := s }
    | none =>
      let topicCfg1 := { topicCfg with Key := key }
      let topicCfg2 := { topicCfg1 with CreatedAt := now }
      let topicCfg3 := { topicCfg2 with UpdatedAt := topicCfg2.CreatedAt }
      { key := key, err := none, cfg := topicCfg3,
        s := { topics := s.topics.insert topicCfg3.Key topicCfg3 } }

/-- `func (s *InMemoryHandler) GetByKey(hashedTopicKey string) (*model.TopicConfig, error)`. -/
def GetByKey (s : InMemoryHandler) (hashedTopicKey : Str) : TopicConfig × Option Err :=
  match s.topics.lookup hashedTopicKey with
  | some v => (v, none)
  | none => (TopicConfig.zero, some Err.DocNotFound)

/-- `func (s *InMemoryHandler) GetByTopic(topicFullName, pulsarURL string)`. -/
def GetByTopic (GetKeyFromNames : KeyFn) (s : InMemoryHandler)
    (topicFullName pulsarURL : Str) : TopicConfig × Option Err :=
  match GetKeyFromNames topicFullName pulsarURL with
  | (_, some err) => (TopicConfig.zero, some err)
  | (key, none) => GetByKey s key

/-- The `for _, v := range s.topics` loop of `Load`, over the entries still to
visit.  The range variable `v` is one variable for the whole loop (the range
clause as it is before Go 1.22, the language level of a module of this code
base's time), and every iteration appends its address `&v`.  The state is the current value of `v` and
the number of pointers appended so far. -/
def Load.range : List (Sigma fun _ : Str => TopicConfig) → TopicConfig × Nat → TopicConfig × Nat
  | [], st => st
  | e :: rest, (_, n) => Load.range rest (e.2, n + 1)

/-- `func (s *InMemoryHandler) Load() ([]*model.TopicConfig, error)`: the records
read through the returned pointers, and the error.  All the pointers are `&v`, so
each reads the value `v` holds when the loop ends.  The entries are visited in the
order of the association list (Go leaves the order of a map range unspecified). -/
def Load (s : InMemoryHandler) : List TopicConfig × Option Err :=
  let st := Load.range s.topics.entries (TopicConfig.zero, 0)
  (List.replicate st.2 st.1, none)

/-- What the specification says `load()` returns ("returns every stored record"):
one record per entry. -/
def Load.spec (s : InMemoryHandler) : List TopicConfig :=
  s.topics.entries.map (fun e => e.2)

/-- The local `v` that `Update` builds from the stored record on the
"key present" path (lines 109-115). -/
def Update.merged (now : Time) (stored topicCfg : TopicConfig) : TopicConfig :=
  { stored with
    Token := topicCfg.Token
    Tenant := topicCfg.Tenant
    Notes := topicCfg.Notes
    TopicStatus := topicCfg.TopicStatus
    UpdatedAt := now
    Webhooks := topicCfg.Webhooks }

/-- `func (s *InMemoryHandler) Update(topicCfg *model.TopicConfig) (string, error)`.
On the "key present" path the local `v` is built and not used again: the
assignment of line 118 stores `*topicCfg` under `topicCfg.Key`. -/
def Update (GetKeyFromNames : KeyFn) (now : Time) (s : InMemoryHandler)
    (topicCfg : TopicConfig) : Mutation :=
  match getKey GetKeyFromNames topicCfg with
  | (key, some err) => { key := key, err := some err, cfg := topicCfg, s := s }
  | (key, none) =>
    match s.topics.lookup key with
    | none => Create GetKeyFromNames now s topicCfg
    | some stored =>
      let _v := Update.merged now stored topicCfg
      { key := key, err := none, cfg := topicCfg,
        s := { topics := s.topics.insert topicCfg.Key topicCfg } }

/-- `func (s *InMemoryHandler) DeleteByKey(hashedTopicKey string) (string, error)`. -/
def DeleteByKey (s : InMemoryHandler) (hashedTopicKey : Str) :
    (Str × Option Err) × InMemoryHandler :=
  match s.topics.lookup hashedTopicKey with
  | none => (([], some Err.DocNotFound), s)
  | some _ => ((hashedTopicKey, none), { topics := s.topics.erase hashedTopicKey })

/-- `func (s *InMemoryHandler) Delete(topicFullName, pulsarURL string) (string, error)`. -/
def Delete (GetKeyFromNames : KeyFn) (s : InMemoryHandler)
    (topicFullName pulsarURL : Str) : (Str × Option Err) × InMemoryHandler :=
  match GetKeyFromNames topicFullName pulsarURL with
  | (_, some err) => (([], some err), s)
  | (key, none) => DeleteByKey s key

/-- One call of a mutating registry method, with its arguments. -/
inductive Op where
  | Create (topicCfg : TopicConfig)
  | Update (topicCfg : TopicConfig)
  | Delete (topicFullName pulsarURL : Str)
  | DeleteByKey (hashedTopicKey : Str)
deriving DecidableEq, Repr

/-- The handler after one call, issued at clock value `now`. -/
def Op.apply (GetKeyFromNames : KeyFn) (now : Time) (s : InMemoryHandler) : Op → InMemoryHandler
  | Op.Create topicCfg => (PulsarBeam.Create GetKeyFromNames now s topicCfg).s
  | Op.Update topicCfg => (PulsarBeam.Update GetKeyFromNames now s topicCfg).s
  | Op.Delete topicFullName pulsarURL =>
    (PulsarBeam.Delete GetKeyFromNames s topicFullName pulsarURL).2
  | Op.DeleteByKey hashedTopicKey => (PulsarBeam.DeleteByKey s hashedTopicKey).2

/-- The handler after a sequence of calls, each paired with the clock value at
which it is issued. -/
def run (GetKeyFromNames : KeyFn) (s : InMemoryHandler) : List (Time × Op) → InMemoryHandler
  | [] => s
  | (now, op) :: rest => run GetKeyFromNames (Op.apply GetKeyFromNames now s op) rest

/-- The clock never goes back along a sequence of calls. -/
def clockMonotone : List (Time × Op) → Bool
  | [] => true
  | [_] => true
  | (t1, _) :: (t2, op2) :: rest => decide (t1 ≤ t2) && clockMonotone ((t2, op2) :: rest)

/-! ## `src/route/handlers.go`: authorization -/

/-- Go `strings.Split(s, sep)` for a separator of one character: the pieces of
`s` between the occurrences of `sep`; never an empty slice. -/
def Split (s : Str) (sep : Char) : List Str :=
  match s with
  | [] => [[]]
  | c :: cs =>
    if c = sep then [] :: Split cs sep
    else
      match Split cs sep with
      | [] => [[c]]
      | p :: ps => (c :: p) :: ps

/-- Go `strings.Join(elems, sep)` for a separator of one character. -/
def Join (elems : List Str) (sep : Char) : Str :=
  match elems with
  | [] => []
  | [a] => a
  | a :: b :: rest => a ++ sep :: Join (b :: rest) sep

/-- `const subDelimiter = "-"`. -/
def subDelimiter : Char := '-'

/-- Modelled from the spec: `util.StrContains(strs, str)` of package `util`
(not among the sources): whether the token "is a member of the configured
superuser-role set". -/
def StrContains (strs : List Str) (str : Str) : Bool :=
  decide (str ∈ strs)

/-- `ExtractEvalTenant(requiredSubject, tokenSub string) bool`.  The assignment
`sub = parts[0]` of the `len(parts) < 2` branch is overwritten by the `Join`
before `sub` is read. -/
def ExtractEvalTenant (requiredSubject tokenSub : Str) : Bool :=
  let parts := Split tokenSub subDelimiter
  let validLength := parts.length - 1
  let sub := Join (parts.take validLength) subDelimiter
  if sub ≠ [] ∧ requiredSubject = sub then true else false

/-- The body of the `for _, v := range ...` loop of `VerifySubject`, over the
tokens still to visit; `false` once the range is exhausted. -/
def VerifySubject.loop (SuperRoles : List Str) (requiredSubject : Str)
    (evalTenant : Str → Str → Bool) : List Str → Bool
  | [] => false
  | v :: rest =>
    if StrContains SuperRoles v then true
    else if requiredSubject = v then true
    else if evalTenant requiredSubject v then true
    else VerifySubject.loop SuperRoles requiredSubject evalTenant rest

/-- `VerifySubject(requiredSubject, tokenSubjects string, evalTenant func) bool`;
`SuperRoles` is the package variable `util.SuperRoles`. -/
def VerifySubject (SuperRoles : List Str) (requiredSubject tokenSubjects : Str)
    (evalTenant : Str → Str → Bool) : Bool :=
  VerifySubject.loop SuperRoles requiredSubject evalTenant (Split tokenSubjects ',')

/-- `VerifySubjectBasedOnTopic(topicFN, tokenSub string, evalTenant func) bool`. -/
def VerifySubjectBasedOnTopic (SuperRoles : List Str) (topicFN tokenSub : Str)
    (evalTenant : Str → Str → Bool) : Bool :=
  let parts := Split topicFN '/'
  if parts.length < 4 then false
  else
    let tenant := parts.getD 2 []
    if tenant.length < 1 then false
    else VerifySubject SuperRoles tenant tokenSub evalTenant

/-! ## `src/route/handlers.go`: the topic handlers -/

/-- The functions of other packages that the topic handlers call:
`model.GetKeyFromNames`, the variable `util.SuperRoles`,
`model.ValidateTopicConfig` (its error result; the handler drops the other one),
and `json.Marshal` at a `*model.TopicConfig` and at a `string`. -/
structure Env where
  GetKeyFromNames : KeyFn
  SuperRoles : List Str
  ValidateTopicConfig : TopicConfig → Option Err
  MarshalTopicConfig : TopicConfig → Str × Option Err
  MarshalString : Str → Str × Option Err

/-- The struct `model.TopicKey` decoded from the body of a read or delete request. -/
structure TopicKey where
  TopicFullName : Str
  PulsarURL : Str
deriving DecidableEq, Repr

/-- What `json.NewDecoder(r.Body).Decode(&x)` yields: the error `io.EOF`, another
error, or a decoded value. -/
inductive Decoded (β : Type) where
  | eof
  | failed (err : Err)
  | ok (value : β)

/-- What a topic handler reads of the `*http.Request`: the route variable
`topicKey` of `mux.Vars(r)` when it is set, the decoding of the body, and the
header `injectedSubs`. -/
structure Request (β : Type) where
  topicKey : Option Str
  body : Decoded β
  injectedSubs : Str

/-- A call a handler makes on the `http.ResponseWriter` (`util.ResponseErrorJSON`
is given the writer and makes its calls on it). -/
inductive WriterCall where
  | WriteHeader (code : Nat)
  | ResponseErrorJSON (err : Err) (code : Nat)
  | SetContentType (value : Str)
  | Write (bytes : Str)
deriving DecidableEq, Repr

/-- Whether the calls send the status `code`. -/
def sends (code : Nat) (calls : List WriterCall) : Bool :=
  calls.any fun c =>
    match c with
    | WriterCall.WriteHeader c1 => decide (c1 = code)
    | WriterCall.ResponseErrorJSON _ c1 => decide (c1 = code)
    | _ => false

def StatusOK : Nat := 200
def StatusCreated : Nat := 201
def StatusForbidden : Nat := 403
def StatusNotFound : Nat := 404
def StatusConflict : Nat := 409
def StatusUnprocessableEntity : Nat := 422
def StatusInternalServerError : Nat := 500

/-- The error `io.EOF`. -/
def ioEOF : Err := Err.invalid "EOF".toList

/-- `GetTopicKey(r *http.Request) (string, error)`. -/
def GetTopicKey (env : Env) (r : Request TopicKey) : Str × Option Err :=
  match r.topicKey with
  | some topicKey => (topicKey, none)
  | none =>
    match r.body with
    | Decoded.eof =>
      ([], some (Err.invalid "missing topic key or topic names in body".toList))
    | Decoded.failed err => ([], some err)
    | Decoded.ok topic =>
      match env.GetKeyFromNames topic.TopicFullName topic.PulsarURL with
      | (_, some err) => ([], some err)
      | (topicKey, none) => (topicKey, none)

/-- `GetTopicHandler(w, r)`, on the registry `singleDb`: the calls made on the
writer and the registry afterwards. -/
def GetTopicHandler (env : Env) (singleDb : InMemoryHandler) (r : Request TopicKey) :
    List WriterCall × InMemoryHandler :=
  match GetTopicKey env r with
  | (_, some err) => ([WriterCall.ResponseErrorJSON err StatusUnprocessableEntity], singleDb)
  | (topicKey, none) =>
    match GetByKey singleDb topicKey with
    | (_, some err) => ([WriterCall.ResponseErrorJSON err StatusNotFound], singleDb)
    | (doc, none) =>
      if !VerifySubjectBasedOnTopic env.SuperRoles doc.TopicFullName r.injectedSubs
          ExtractEvalTenant then
        ([WriterCall.WriteHeader StatusForbidden], singleDb)
      else
        match env.MarshalTopicConfig doc with
        | (_, some err) =>
          ([WriterCall.ResponseErrorJSON err StatusInternalServerError], singleDb)
        | (resJSON, none) =>
          ([WriterCall.SetContentType "application/json; charset=UTF-8".toList,
            WriterCall.WriteHeader StatusOK, WriterCall.Write resJSON], singleDb)

/-- `UpdateTopicHandler(w, r)`, on the registry `singleDb` at clock value `now`. -/
def UpdateTopicHandler (env : Env) (now : Time) (singleDb : InMemoryHandler)
    (r : Request TopicConfig) : List WriterCall × InMemoryHandler :=
  match r.body with
  | Decoded.eof => ([WriterCall.ResponseErrorJSON ioEOF StatusUnprocessableEntity], singleDb)
  | Decoded.failed err =>
    ([WriterCall.ResponseErrorJSON err StatusUnprocessableEntity], singleDb)
  | Decoded.ok doc =>
    match env.ValidateTopicConfig doc with
    | some err => ([WriterCall.ResponseErrorJSON err StatusUnprocessableEntity], singleDb)
    | none =>
      if !VerifySubjectBasedOnTopic env.SuperRoles doc.TopicFullName r.injectedSubs
          ExtractEvalTenant then
        ([WriterCall.WriteHeader StatusForbidden], singleDb)
      else
        let m := Update env.GetKeyFromNames now singleDb doc
        match m.err with
        | some err => ([WriterCall.ResponseErrorJSON err StatusConflict], m.s)
        | none =>
          if m.key.length > 1 then
            match GetByKey m.s m.key with
            | (_, some err) =>
              ([WriterCall.ResponseErrorJSON err StatusInternalServerError], m.s)
            | (savedDoc, none) =>
              match env.MarshalTopicConfig savedDoc with
              | (_, some err) =>
                ([WriterCall.WriteHeader StatusCreated,
                  WriterCall.ResponseErrorJSON err StatusInternalServerError], m.s)
              | (resJSON, none) =>
                ([WriterCall.WriteHeader StatusCreated, WriterCall.Write resJSON], m.s)
          else
            ([WriterCall.ResponseErrorJSON (Err.invalid "failed to update".toList)
                StatusInternalServerError], m.s)

/-- `DeleteTopicHandler(w, r)`, on the registry `singleDb`. -/
def DeleteTopicHandler (env : Env) (singleDb : InMemoryHandler) (r : Request TopicKey) :
    List WriterCall × InMemoryHandler :=
  match GetTopicKey env r with
  | (_, some err) => ([WriterCall.ResponseErrorJSON err StatusUnprocessableEntity], singleDb)
  | (topicKey, none) =>
    match GetByKey singleDb topicKey with
    | (_, some err) => ([WriterCall.ResponseErrorJSON err StatusNotFound], singleDb)
    | (doc, none) =>
      if !VerifySubjectBasedOnTopic env.SuperRoles doc.TopicFullName r.injectedSubs
          ExtractEvalTenant then
        ([WriterCall.WriteHeader StatusForbidden], singleDb)
      else
        match DeleteByKey singleDb topicKey with
        | ((_, some err), db1) => ([WriterCall.ResponseErrorJSON err StatusNotFound], db1)
        | ((deletedKey, none), db1) =>
          match env.MarshalString deletedKey with
          | (_, some _) => ([WriterCall.WriteHeader StatusInternalServerError], db1)
          | (resJSON, none) =>
            ([WriterCall.SetContentType "application/json; charset=UTF-8".toList,
              WriterCall.WriteHeader StatusOK, WriterCall.Write resJSON], db1)

/-! ## Sample inputs -/

/-- A key deriver for the examples: the topic name and the cluster URL joined by
`|`; it rejects an empty topic name. -/
def sampleKey : KeyFn := fun name url =>
  if name = [] then ([], some (Err.invalid "empty".toList)) else (name ++ '|' :: url, none)

/-- A payload as a client would submit it (no key, no timestamps). -/
def sampleCfg : TopicConfig :=
  { TopicFullName := "persistent/public/acme/t1".toList, PulsarURL := "pulsar://a".toList,
    Token := "tok".toList, Tenant := "acme".toList, Notes := "n".toList,
    TopicStatus := 1, Webhooks := ["http://hook".toList], Key := [],
    CreatedAt := 0, UpdatedAt := 0 }

/-- A second payload, of another tenant. -/
def otherCfg : TopicConfig :=
  { TopicFullName := "persistent/public/other/t2".toList, PulsarURL := "pulsar://a".toList,
    Token := "secret".toList, Tenant := "other".toList, Notes := [],
    TopicStatus := 1, Webhooks := [], Key := [], CreatedAt := 0, UpdatedAt := 0 }

/-- The key `sampleKey` derives for `sampleCfg`. -/
def sampleK : Str := "persistent/public/acme/t1|pulsar://a".toList

/-- The key `sampleKey` derives for `otherCfg`. -/
def otherK : Str := "persistent/public/other/t2|pulsar://a".toList

/-- The registry after `sampleCfg` is created at clock value 5. -/
def storeOne : InMemoryHandler :=
  run sampleKey NewInMemoryHandler [(5, Op.Create sampleCfg)]

/-- The registry after `sampleCfg` and `otherCfg` are created at clock values 5
and 6. -/
def storeTwo : InMemoryHandler :=
  run sampleKey NewInMemoryHandler [(5, Op.Create sampleCfg), (6, Op.Create otherCfg)]

/-- An environment for the examples: one superuser role, a validation that accepts
every payload, and marshalling that never fails. -/
def sampleEnv : Env :=
  { GetKeyFromNames := sampleKey
    SuperRoles := ["superuser".toList]
    ValidateTopicConfig := fun _ => none
    MarshalTopicConfig := fun cfg => (cfg.TopicFullName, none)
    MarshalString := fun str => (str, none) }

/-! ## Predicates on registry states -/

/-- Every stored record carries, in its `Key` field, the key it is stored under. -/
def KeyInv (s : InMemoryHandler) : Prop :=
  ∀ k r, s.topics.lookup k = some r → r.Key = k

/-! ## Registry: lemmas shared by the theorems below -/

theorem Create_of_getKey_err (gk : KeyFn) (now : Time) (s : InMemoryHandler) (cfg : TopicConfig)
    (K : Str) (e : Err) (hk : getKey gk cfg = (K, some e)) :
    Create gk now s cfg = { key := K, err := some e, cfg := cfg, s := s } := by
  simp [Create, hk]

theorem Create_of_present (gk : KeyFn) (now : Time) (s : InMemoryHandler) (cfg : TopicConfig)
    (K : Str) (stored : TopicConfig) (hk : getKey gk cfg = (K, none))
    (hp : s.topics.lookup K = some stored) :
    Create gk now s cfg =
      { key := K, err := some Err.DocAlreadyExisted, cfg := cfg, s := s } := by
  simp [Create, hk, hp]

theorem Create_of_absent (gk : KeyFn) (now : Time) (s : InMemoryHandler) (cfg : TopicConfig)
    (K : Str) (hk : getKey gk cfg = (K, none)) (ha : s.topics.lookup K = none) :
    Create gk now s cfg =
      { key := K, err := none,
        cfg := { cfg with Key := K, CreatedAt := now, UpdatedAt := now },
        s := { topics := s.topics.insert K
                { cfg with Key := K, CreatedAt := now, UpdatedAt := now } } } := by
  simp [Create, hk, ha]

/-- A successful `Create` derived a key that was absent. -/
theorem Create_ok_inv (gk : KeyFn) (now : Time) (s : InMemoryHandler) (cfg : TopicConfig)
    (h : (Create gk now s cfg).err = none) :
    ∃ K, getKey gk cfg = (K, none) ∧ s.topics.lookup K = none := by
  rcases hk : getKey gk cfg with ⟨K, _ | e⟩
  · rcases hl : s.topics.lookup K with _ | stored
    · exact ⟨K, rfl, hl⟩
    · rw [Create_of_present gk now s cfg K stored hk hl] at h
      exact absurd h (by simp)
  · rw [Create_of_getKey_err gk now s cfg K e hk] at h
    exact absurd h (by simp)

/-- C1. Create-then-get round trip: when `Create(cfg)` succeeds with key `K` at
clock value `now`, `GetByKey(K)` on the resulting registry succeeds and returns a
record whose `Key` is `K`, whose `CreatedAt` and `UpdatedAt` are both `now`, and
whose other fields are those of `cfg`. -/
theorem create_then_getByKey (gk : KeyFn) (now : Time) (s : InMemoryHandler)
    (cfg : TopicConfig) (h : (Create gk now s cfg).err = none) :
    ∃ r, GetByKey (Create gk now s cfg).s (Create gk now s cfg).key = (r, none) ∧
      r.Key = (Create gk now s cfg).key ∧ r.CreatedAt = now ∧ r.UpdatedAt = now ∧
      r.TopicFullName = cfg.TopicFullName ∧ r.PulsarURL = cfg.PulsarURL ∧
      r.Token = cfg.Token ∧ r.Tenant = cfg.Tenant ∧ r.Notes = cfg.Notes ∧
      r.TopicStatus = cfg.TopicStatus ∧ r.Webhooks = cfg.Webhooks := by
  obtain ⟨K, hk, ha⟩ := Create_ok_inv gk now s cfg h
  rw [Create_of_absent gk now s cfg K hk ha]
  refine ⟨{ cfg with Key := K, CreatedAt := now, UpdatedAt := now }, ?_, rfl, rfl, rfl, rfl,
    rfl, rfl, rfl, rfl, rfl, rfl⟩
  simp [GetByKey, AList.lookup_insert]

theorem create_then_getByKey_witness :
    (Create sampleKey 5 NewInMemoryHandler sampleCfg).err = none ∧
    ∃ r, GetByKey (Create sampleKey 5 NewInMemoryHandler sampleCfg).s
        (Create sampleKey 5 NewInMemoryHandler sampleCfg).key = (r, none) ∧
      r.Key = (Create sampleKey 5 NewInMemoryHandler sampleCfg).key ∧
      r.CreatedAt = 5 ∧ r.UpdatedAt = 5 ∧
      r.TopicFullName = sampleCfg.TopicFullName ∧ r.PulsarURL = sampleCfg.PulsarURL ∧
      r.Token = sampleCfg.Token ∧ r.Tenant = sampleCfg.Tenant ∧ r.Notes = sampleCfg.Notes ∧
      r.TopicStatus = sampleCfg.TopicStatus ∧ r.Webhooks = sampleCfg.Webhooks :=
  ⟨by decide, create_then_getByKey sampleKey 5 NewInMemoryHandler sampleCfg (by decide)⟩

/-- C2. `Create` never overwrites: when the key derived from `cfg` is present,
`Create(cfg)` returns that key with the error `DocAlreadyExisted` and leaves the
registry as it was; in particular a `Create` for the same
`(TopicFullName, PulsarURL)` issued after a successful `Create` fails with
`DocAlreadyExisted` and changes nothing. -/
theorem create_existing_fails (gk : KeyFn) (now : Time) (s : InMemoryHandler)
    (cfg : TopicConfig) :
    (∀ K stored, getKey gk cfg = (K, none) → s.topics.lookup K = some stored →
      (Create gk now s cfg).key = K ∧
      (Create gk now s cfg).err = some Err.DocAlreadyExisted ∧
      (Create gk now s cfg).s = s) ∧
    (∀ (cfg2 : TopicConfig) (now2 : Time), (Create gk now s cfg).err = none →
      cfg2.TopicFullName = cfg.TopicFullName → cfg2.PulsarURL = cfg.PulsarURL →
      (Create gk now2 (Create gk now s cfg).s cfg2).err = some Err.DocAlreadyExisted ∧
      (Create gk now2 (Create gk now s cfg).s cfg2).s = (Create gk now s cfg).s) := by
  constructor
  · intro K stored hk hp
    rw [Create_of_present gk now s cfg K stored hk hp]
    exact ⟨rfl, rfl, rfl⟩
  · intro cfg2 now2 h hn hu
    obtain ⟨K, hk, ha⟩ := Create_ok_inv gk now s cfg h
    have hk2 : getKey gk cfg2 = (K, none) := by
      simpa [getKey, hn, hu] using hk
    rw [Create_of_absent gk now s cfg K hk ha]
    rw [Create_of_present gk now2 _ cfg2 K
      { cfg with Key := K, CreatedAt := now, UpdatedAt := now } hk2
      (by simp [AList.lookup_insert])]
    exact ⟨rfl, rfl⟩

theorem create_existing_fails_witness :
    ((Create sampleKey 9 (Create sampleKey 5 NewInMemoryHandler sampleCfg).s sampleCfg).err =
        some Err.DocAlreadyExisted ∧
      (Create sampleKey 9 (Create sampleKey 5 NewInMemoryHandler sampleCfg).s sampleCfg).s =
        (Create sampleKey 5 NewInMemoryHandler sampleCfg).s) ∧
    (Create sampleKey 9 (Create sampleKey 5 NewInMemoryHandler sampleCfg).s
        { sampleCfg with Token := "other".toList }).err = some Err.DocAlreadyExisted ∧
    (Create sampleKey 9 (Create sampleKey 5 NewInMemoryHandler sampleCfg).s
        { sampleCfg with Token := "other".toList }).s =
      (Create sampleKey 5 NewInMemoryHandler sampleCfg).s :=
  ⟨((create_existing_fails sampleKey 9 (Create sampleKey 5 NewInMemoryHandler sampleCfg).s
      sampleCfg).1 "persistent/public/acme/t1|pulsar://a".toList
      { sampleCfg with Key := "persistent/public/acme/t1|pulsar://a".toList,
                       CreatedAt := 5, UpdatedAt := 5 } (by decide) (by decide)).2,
   (create_existing_fails sampleKey 5 NewInMemoryHandler sampleCfg).2
    { sampleCfg with Token := "other".toList } 9 (by decide) rfl rfl⟩

/-- C3. At a registry holding `sampleCfg` (created at clock value 5), `Update`
with the same payload carrying a new token, at clock value 9, returns the derived
key without error, yet the record stored at that key is not the merged record: it
still has the old token and the old `UpdatedAt`, and the payload has been stored
verbatim under its own (empty) `Key`. -/
theorem update_existing_not_merged :
    let K : Str := "persistent/public/acme/t1|pulsar://a".toList
    let stored : TopicConfig := { sampleCfg with Key := K, CreatedAt := 5, UpdatedAt := 5 }
    let s1 := (Create sampleKey 5 NewInMemoryHandler sampleCfg).s
    let cfg : TopicConfig := { sampleCfg with Token := "new".toList }
    let r := Update sampleKey 9 s1 cfg
    s1.topics.lookup K = some stored ∧
    r.key = K ∧ r.err = none ∧
    GetByKey r.s K = (stored, none) ∧
    (GetByKey r.s K).1 ≠ Update.merged 9 stored cfg ∧
    (GetByKey r.s K).1.Token = "tok".toList ∧
    (GetByKey r.s K).1.UpdatedAt = 5 ∧
    GetByKey r.s [] = (cfg, none) := by
  decide

/-- C4. Upsert on a miss: when the key derived from `cfg` is absent, `Update(cfg)`
returns what `Create(cfg)` returns on the same registry at the same clock value:
the same key, the same error, the same resulting registry and the same effect on
the payload.  When the key derivation succeeds the call succeeds and stores the
record. -/
theorem update_absent_eq_create (gk : KeyFn) (now : Time) (s : InMemoryHandler)
    (cfg : TopicConfig) (ha : s.topics.lookup (getKey gk cfg).1 = none) :
    Update gk now s cfg = Create gk now s cfg ∧
    ((getKey gk cfg).2 = none →
      (Update gk now s cfg).key = (getKey gk cfg).1 ∧ (Update gk now s cfg).err = none ∧
      (Update gk now s cfg).s.topics.lookup (getKey gk cfg).1 =
        some { cfg with Key := (getKey gk cfg).1, CreatedAt := now, UpdatedAt := now }) := by
  rcases hk : getKey gk cfg with ⟨K, _ | e⟩
  · rw [hk] at ha
    have hu : Update gk now s cfg = Create gk now s cfg := by
      simp [Update, hk, ha]
    rw [hu, Create_of_absent gk now s cfg K hk ha]
    exact ⟨rfl, fun _ => ⟨rfl, rfl, by simp [AList.lookup_insert]⟩⟩
  · refine ⟨?_, fun h => absurd h (by simp)⟩
    rw [Create_of_getKey_err gk now s cfg K e hk]
    simp [Update, hk]

theorem update_absent_eq_create_witness :
    NewInMemoryHandler.topics.lookup (getKey sampleKey sampleCfg).1 = none ∧
    Update sampleKey 7 NewInMemoryHandler sampleCfg =
      Create sampleKey 7 NewInMemoryHandler sampleCfg ∧
    (Update sampleKey 7 NewInMemoryHandler sampleCfg).err = none :=
  ⟨by decide,
    (update_absent_eq_create sampleKey 7 NewInMemoryHandler sampleCfg (by decide)).1,
    ((update_absent_eq_create sampleKey 7 NewInMemoryHandler sampleCfg (by decide)).2
      (by decide)).2.1⟩

/-- C10. Delete-then-get: when `DeleteByKey(K)` succeeds, `GetByKey(K)` on the
resulting registry fails with `DocNotFound` (and returns the zero record). -/
theorem delete_then_getByKey (s : InMemoryHandler) (K : Str)
    (h : (DeleteByKey s K).1.2 = none) :
    GetByKey (DeleteByKey s K).2 K = (TopicConfig.zero, some Err.DocNotFound) := by
  rcases hl : s.topics.lookup K with _ | stored
  · simp [DeleteByKey, hl] at h
  · simp [DeleteByKey, hl, GetByKey, AList.lookup_erase]

theorem delete_then_getByKey_witness :
    (DeleteByKey (Create sampleKey 5 NewInMemoryHandler sampleCfg).s
        "persistent/public/acme/t1|pulsar://a".toList).1.2 = none ∧
    GetByKey (DeleteByKey (Create sampleKey 5 NewInMemoryHandler sampleCfg).s
        "persistent/public/acme/t1|pulsar://a".toList).2
        "persistent/public/acme/t1|pulsar://a".toList =
      (TopicConfig.zero, some Err.DocNotFound) :=
  ⟨by decide,
    delete_then_getByKey (Create sampleKey 5 NewInMemoryHandler sampleCfg).s
      "persistent/public/acme/t1|pulsar://a".toList (by decide)⟩

/-! ## Authorization: `Split` and `Join` -/

theorem Split_ne_nil (s : Str) (c : Char) : Split s c ≠ [] := by
  cases s with
  | nil => simp [Split]
  | cons a as =>
    by_cases h : a = c
    · simp [Split, h]
    · cases hs : Split as c <;> simp [Split, h, hs]

/-- A string without the separator is a single piece. -/
theorem Split_of_not_mem (s : Str) (c : Char) (h : c ∉ s) : Split s c = [s] := by
  induction s with
  | nil => simp [Split]
  | cons a as ih =>
    have ha : ¬ a = c := fun e => h (by simp [e])
    have hs : Split as c = [as] := ih (fun m => h (List.mem_cons_of_mem _ m))
    simp [Split, ha, hs]

/-- No piece contains the separator. -/
theorem not_mem_of_mem_Split (s : Str) (c : Char) :
    ∀ p ∈ Split s c, c ∉ p := by
  induction s with
  | nil => simp [Split]
  | cons a as ih =>
    by_cases h : a = c
    · intro p hp
      simp only [Split, h, if_true, List.mem_cons] at hp
      rcases hp with rfl | hp
      · simp
      · exact ih p hp
    · rcases hs : Split as c with _ | ⟨q, qs⟩
      · exact absurd hs (Split_ne_nil as c)
      · intro p hp
        rw [hs] at ih
        simp only [Split, h, if_false, hs, List.mem_cons] at hp
        rcases hp with rfl | hp
        · intro hm
          rcases List.mem_cons.1 hm with e | hm
          · exact h e.symm
          · exact ih q (List.mem_cons_self _ _) hm
        · exact ih p (List.mem_cons_of_mem _ hp)

/-- Splitting a string whose prefix `a` has no separator: the first piece starts
with `a`. -/
theorem Split_append_of_not_mem (a b : Str) (c : Char) (h : c ∉ a) :
    Split (a ++ b) c = (a ++ (Split b c).headD []) :: (Split b c).tail := by
  induction a with
  | nil =>
    rcases hs : Split b c with _ | ⟨q, qs⟩
    · exact absurd hs (Split_ne_nil b c)
    · simp [hs]
  | cons x xs ih =>
    have hx : ¬ x = c := fun e => h (by simp [e])
    have ih2 := ih (fun m => h (List.mem_cons_of_mem _ m))
    simp [Split, hx, ih2]

/-- Splitting at an occurrence of the separator. -/
theorem Split_append_sep (a b : Str) (c : Char) :
    Split (a ++ c :: b) c = Split a c ++ Split b c := by
  induction a with
  | nil => simp [Split]
  | cons x xs ih =>
    by_cases hx : x = c
    · simp [Split, hx, ih]
    · rcases hs : Split xs c with _ | ⟨q, qs⟩
      · exact absurd hs (Split_ne_nil xs c)
      · simp [Split, hx, ih, hs]

theorem Join_append_singleton (xs : List Str) (x : Str) (c : Char) (h : xs ≠ []) :
    Join (xs ++ [x]) c = Join xs c ++ c :: x := by
  induction xs with
  | nil => exact absurd rfl h
  | cons a as ih =>
    cases as with
    | nil => simp [Join]
    | cons b bs =>
      have := ih (by simp)
      simp only [List.cons_append] at this ⊢
      simp [Join, this]

/-- `Join` undoes `Split`. -/
theorem Join_Split (s : Str) (c : Char) : Join (Split s c) c = s := by
  induction s with
  | nil => simp [Split, Join]
  | cons a as ih =>
    by_cases h : a = c
    · rcases hs : Split as c with _ | ⟨q, qs⟩
      · exact absurd hs (Split_ne_nil as c)
      · rw [hs] at ih
        simp [Split, h, hs, Join, ih]
    · rcases hs : Split as c with _ | ⟨q, qs⟩
      · exact absurd hs (Split_ne_nil as c)
      · rw [hs] at ih
        cases qs with
        | nil =>
          simp only [Join] at ih
          simp [Split, h, hs, Join, ih]
        | cons q2 qs2 =>
          simp only [Join] at ih
          simp [Split, h, hs, Join, ih]

theorem take_length_pred_append_singleton {α : Type} (xs : List α) (x : α) :
    (xs ++ [x]).take ((xs ++ [x]).length - 1) = xs := by
  simp

/-- Every `Split` is a non-empty front followed by a last piece. -/
theorem Split_eq_front_last (s : Str) (c : Char) :
    ∃ front last, Split s c = front ++ [last] := by
  have h := Split_ne_nil s c
  exact ⟨(Split s c).dropLast, (Split s c).getLast h, (List.dropLast_append_getLast h).symm⟩

/-- What `ExtractEvalTenant` compares the tenant with, for a subject whose pieces
are `front ++ [last]`. -/
theorem ExtractEvalTenant_of_Split (t s : Str) (front : List Str) (last : Str)
    (h : Split s subDelimiter = front ++ [last]) :
    ExtractEvalTenant t s = decide (Join front subDelimiter ≠ [] ∧ t = Join front subDelimiter) := by
  unfold ExtractEvalTenant
  simp only [h, take_length_pred_append_singleton]
  by_cases hc : Join front subDelimiter ≠ [] ∧ t = Join front subDelimiter
  · simp [hc]
  · simp only [hc, if_false]; simp [hc]

/-- The loop of `VerifySubject` answers `true` exactly when some token it visits
passes one of the three tests. -/
theorem VerifySubject_loop_iff (SuperRoles : List Str) (t : Str)
    (evalTenant : Str → Str → Bool) (tokens : List Str) :
    VerifySubject.loop SuperRoles t evalTenant tokens = true ↔
      ∃ v ∈ tokens, v ∈ SuperRoles ∨ v = t ∨ evalTenant t v = true := by
  induction tokens with
  | nil => simp [VerifySubject.loop]
  | cons v rest ih =>
    by_cases h1 : v ∈ SuperRoles
    · simp [VerifySubject.loop, StrContains, h1]
    · by_cases h2 : t = v
      · simp [VerifySubject.loop, StrContains, h2]
      · have h2' : ¬ v = t := fun e => h2 e.symm
        by_cases h3 : evalTenant t v = true
        · simp [VerifySubject.loop, StrContains, h3]
        · simp [VerifySubject.loop, StrContains, h1, h2, h2', h3, ih]

/-- The default tenant predicate accepts exactly `t-x` with no hyphen in `x`. -/
theorem ExtractEvalTenant_true_iff (t s : Str) (ht : t ≠ []) :
    ExtractEvalTenant t s = true ↔ ∃ x, subDelimiter ∉ x ∧ s = t ++ subDelimiter :: x := by
  constructor
  · intro h
    obtain ⟨front, last, hs⟩ := Split_eq_front_last s subDelimiter
    rw [ExtractEvalTenant_of_Split t s front last hs] at h
    obtain ⟨hne, hEq⟩ := of_decide_eq_true h
    have hfront : front ≠ [] := by
      intro e
      rw [e] at hne
      exact hne (by simp [Join])
    refine ⟨last, ?_, ?_⟩
    · apply not_mem_of_mem_Split s subDelimiter
      rw [hs]
      simp
    · have hj := Join_Split s subDelimiter
      rw [hs, Join_append_singleton front last subDelimiter hfront, ← hEq] at hj
      exact hj.symm
  · rintro ⟨x, hx, rfl⟩
    have hs : Split (t ++ subDelimiter :: x) subDelimiter = Split t subDelimiter ++ [x] := by
      rw [Split_append_sep, Split_of_not_mem x subDelimiter hx]
    rw [ExtractEvalTenant_of_Split t _ (Split t subDelimiter) x hs, Join_Split]
    simp [ht]

/-- C5. `VerifySubject` returns `true` if and only if one of the tokens obtained
by splitting `tokenSubjects` on `,` is a superuser role, or equals
`requiredSubject`, or satisfies `evalTenant(requiredSubject, token)`; in
particular a superuser token anywhere in the list grants access whatever the
tenant and the predicate, and when no token passes a test the result is `false`. -/
theorem verifySubject_iff (SuperRoles : List Str) (requiredSubject tokenSubjects : Str)
    (evalTenant : Str → Str → Bool) :
    (VerifySubject SuperRoles requiredSubject tokenSubjects evalTenant = true ↔
      ∃ v ∈ Split tokenSubjects ',',
        v ∈ SuperRoles ∨ v = requiredSubject ∨ evalTenant requiredSubject v = true) ∧
    ((∃ v ∈ Split tokenSubjects ',', v ∈ SuperRoles) →
      VerifySubject SuperRoles requiredSubject tokenSubjects evalTenant = true) ∧
    ((∀ v ∈ Split tokenSubjects ',',
        v ∉ SuperRoles ∧ v ≠ requiredSubject ∧ evalTenant requiredSubject v = false) →
      VerifySubject SuperRoles requiredSubject tokenSubjects evalTenant = false) := by
  have key := VerifySubject_loop_iff SuperRoles requiredSubject evalTenant
    (Split tokenSubjects ',')
  refine ⟨key, ?_, ?_⟩
  · rintro ⟨v, hv, hs⟩
    exact key.2 ⟨v, hv, Or.inl hs⟩
  · intro hall
    rw [← Bool.not_eq_true]
    intro ht
    obtain ⟨v, hv, h⟩ := key.1 ht
    obtain ⟨h1, h2, h3⟩ := hall v hv
    rcases h with h | h | h
    · exact h1 h
    · exact h2 h
    · rw [h3] at h
      exact absurd h (by simp)

theorem verifySubject_iff_witness :
    VerifySubject ["superadmin".toList] "acme".toList "guest,superadmin".toList
      (fun _ _ => false) = true :=
  (verifySubject_iff ["superadmin".toList] "acme".toList "guest,superadmin".toList
      (fun _ _ => false)).2.1 ⟨"superadmin".toList, by decide, by decide⟩

/-- C6. For a non-empty required tenant `t`, `ExtractEvalTenant(t, s)` is `true`
if and only if `s` is `t`, a hyphen, and a suffix without hyphen.  Hence a subject
without hyphen never matches, and `acme-beta-prod` matches `acme-beta` but not
`acme`. -/
theorem extractEvalTenant_iff (t s : Str) (ht : t ≠ []) :
    (ExtractEvalTenant t s = true ↔ ∃ x, '-' ∉ x ∧ s = t ++ '-' :: x) ∧
    ('-' ∉ s → ExtractEvalTenant t s = false) ∧
    ExtractEvalTenant "acme-beta".toList "acme-beta-prod".toList = true ∧
    ExtractEvalTenant "acme".toList "acme-beta-prod".toList = false := by
  have key := ExtractEvalTenant_true_iff t s ht
  refine ⟨key, ?_, by decide, by decide⟩
  intro hs
  rw [← Bool.not_eq_true]
  intro h
  obtain ⟨x, _, rfl⟩ := key.1 h
  exact hs (by simp [subDelimiter])

theorem extractEvalTenant_iff_witness :
    "acme".toList ≠ [] ∧
    ((ExtractEvalTenant "acme".toList "acme-prod".toList = true ↔
        ∃ x, '-' ∉ x ∧ "acme-prod".toList = "acme".toList ++ '-' :: x) ∧
      ('-' ∉ "acme-prod".toList → ExtractEvalTenant "acme".toList "acme-prod".toList = false) ∧
      ExtractEvalTenant "acme-beta".toList "acme-beta-prod".toList = true ∧
      ExtractEvalTenant "acme".toList "acme-beta-prod".toList = false) :=
  ⟨by decide, extractEvalTenant_iff "acme".toList "acme-prod".toList (by decide)⟩

/-- The tenant segment that `VerifySubjectBasedOnTopic` reads, when there is one. -/
theorem getD_of_index (parts : List Str) (seg : Str) (h : parts[2]? = some seg) :
    parts.getD 2 [] = seg := by
  simp [List.getD, h]

theorem VerifySubjectBasedOnTopic_eq (SuperRoles : List Str) (topicFN tokenSub : Str)
    (evalTenant : Str → Str → Bool) :
    VerifySubjectBasedOnTopic SuperRoles topicFN tokenSub evalTenant =
      if (Split topicFN '/').length < 4 then false
      else if ((Split topicFN '/').getD 2 []).length < 1 then false
      else VerifySubject SuperRoles ((Split topicFN '/').getD 2 []) tokenSub evalTenant :=
  rfl

/-- With at least four segments and a non-empty tenant segment the topic check is
the subject check on that segment. -/
theorem VerifySubjectBasedOnTopic_of_tenant (SuperRoles : List Str) (topicFN tokenSub : Str)
    (evalTenant : Str → Str → Bool) (seg : Str) (h4 : 4 ≤ (Split topicFN '/').length)
    (hseg : (Split topicFN '/')[2]? = some seg) (hne : seg ≠ []) :
    VerifySubjectBasedOnTopic SuperRoles topicFN tokenSub evalTenant =
      VerifySubject SuperRoles seg tokenSub evalTenant := by
  have h1 : ¬ (Split topicFN '/').length < 4 := by omega
  have h2 : ¬ seg.length < 1 := by
    have := List.length_pos.2 hne
    omega
  rw [VerifySubjectBasedOnTopic_eq, if_neg h1, getD_of_index _ seg hseg, if_neg h2]

/-- C7. `VerifySubjectBasedOnTopic` returns `false` when the topic name has fewer
than four `/`-separated segments or its segment at index 2 is empty, whatever the
subjects and the superuser roles; otherwise it returns
`VerifySubject(segment at index 2, tokenSub, evalTenant)`. -/
theorem verifySubjectBasedOnTopic_spec (SuperRoles : List Str) (topicFN tokenSub : Str)
    (evalTenant : Str → Str → Bool) :
    ((Split topicFN '/').length < 4 →
      VerifySubjectBasedOnTopic SuperRoles topicFN tokenSub evalTenant = false) ∧
    ((Split topicFN '/')[2]? = some [] →
      VerifySubjectBasedOnTopic SuperRoles topicFN tokenSub evalTenant = false) ∧
    (∀ seg, 4 ≤ (Split topicFN '/').length → (Split topicFN '/')[2]? = some seg → seg ≠ [] →
      VerifySubjectBasedOnTopic SuperRoles topicFN tokenSub evalTenant =
        VerifySubject SuperRoles seg tokenSub evalTenant) := by
  refine ⟨?_, ?_, ?_⟩
  · intro h
    rw [VerifySubjectBasedOnTopic_eq, if_pos h]
  · intro h
    by_cases h4 : (Split topicFN '/').length < 4
    · rw [VerifySubjectBasedOnTopic_eq, if_pos h4]
    · rw [VerifySubjectBasedOnTopic_eq, if_neg h4, getD_of_index _ [] h]
      rfl
  · intro seg h4 hseg hne
    exact VerifySubjectBasedOnTopic_of_tenant SuperRoles topicFN tokenSub evalTenant seg
      h4 hseg hne

theorem verifySubjectBasedOnTopic_spec_witness :
    VerifySubjectBasedOnTopic ["superadmin".toList] "scheme/ns".toList "superadmin".toList
        ExtractEvalTenant = false ∧
    VerifySubjectBasedOnTopic ["superadmin".toList] "scheme/ns//t".toList "superadmin".toList
        ExtractEvalTenant = false ∧
    VerifySubjectBasedOnTopic [] "scheme/ns/acme/t".toList "acme-prod".toList
        ExtractEvalTenant =
      VerifySubject [] "acme".toList "acme-prod".toList ExtractEvalTenant :=
  ⟨(verifySubjectBasedOnTopic_spec ["superadmin".toList] "scheme/ns".toList
      "superadmin".toList ExtractEvalTenant).1 (by decide),
   (verifySubjectBasedOnTopic_spec ["superadmin".toList] "scheme/ns//t".toList
      "superadmin".toList ExtractEvalTenant).2.1 (by decide),
   (verifySubjectBasedOnTopic_spec [] "scheme/ns/acme/t".toList "acme-prod".toList
      ExtractEvalTenant).2.2 "acme".toList (by decide) (by decide) (by decide)⟩

/-- C8. For a topic with at least four segments whose tenant segment `t` is
non-empty and has no comma, and a suffix `x` without hyphen, the subject `t-x` is
authorized by `VerifySubjectBasedOnTopic` with the default tenant predicate,
whatever the superuser roles. -/
theorem verifySubjectBasedOnTopic_tenant_suffix (SuperRoles : List Str) (topic t x : Str)
    (h4 : 4 ≤ (Split topic '/').length) (ht : (Split topic '/')[2]? = some t)
    (hne : t ≠ []) (hc : ',' ∉ t) (hx : '-' ∉ x) :
    VerifySubjectBasedOnTopic SuperRoles topic (t ++ '-' :: x) ExtractEvalTenant = true := by
  rw [VerifySubjectBasedOnTopic_of_tenant SuperRoles topic _ ExtractEvalTenant t h4 ht hne]
  have hcomma : ',' ∉ t ++ ['-'] := by
    intro hm
    rcases List.mem_append.1 hm with hm | hm
    · exact hc hm
    · simp at hm
  have hsplit : Split (t ++ '-' :: x) ',' =
      (t ++ ['-'] ++ (Split x ',').headD []) :: (Split x ',').tail := by
    have := Split_append_of_not_mem (t ++ ['-']) x ',' hcomma
    simpa using this
  have hhead : '-' ∉ (Split x ',').headD [] := by
    rcases hs : Split x ',' with _ | ⟨q, qs⟩
    · exact absurd hs (Split_ne_nil x ',')
    · intro hm
      have hq : q ∈ Split x ',' := by rw [hs]; exact List.mem_cons_self _ _
      have hjoin := Join_Split x ','
      rw [hs] at hjoin
      apply hx
      rw [← hjoin]
      cases qs with
      | nil => simpa [Join] using hm
      | cons q2 qs2 =>
        simp only [Join, List.headD_cons] at hm ⊢
        exact List.mem_append_left _ hm
  apply (VerifySubject_loop_iff SuperRoles t ExtractEvalTenant _).2
  refine ⟨t ++ ['-'] ++ (Split x ',').headD [], ?_, Or.inr (Or.inr ?_)⟩
  · rw [hsplit]
    exact List.mem_cons_self _ _
  · apply (ExtractEvalTenant_true_iff t _ hne).2
    exact ⟨(Split x ',').headD [], hhead, by simp [subDelimiter]⟩

theorem verifySubjectBasedOnTopic_tenant_suffix_witness :
    VerifySubjectBasedOnTopic [] "scheme/ns/acme/topic1".toList
      ("acme".toList ++ '-' :: "prod".toList) ExtractEvalTenant = true :=
  verifySubjectBasedOnTopic_tenant_suffix [] "scheme/ns/acme/topic1".toList "acme".toList
    "prod".toList (by decide) (by decide) (by decide) (by decide) (by decide)

/-- C9, as stated, fails: with an empty required tenant the empty subject string
is a direct match, and with the empty string among the superuser roles the empty
subject string is a superuser token. -/
theorem empty_subject_not_always_rejected :
    VerifySubject [] [] [] ExtractEvalTenant = true ∧
    VerifySubject ["".toList] "acme".toList [] ExtractEvalTenant = true ∧
    VerifySubjectBasedOnTopic ["".toList] "scheme/ns/acme/topic1".toList []
      ExtractEvalTenant = true := by
  decide

/-- C9, amended. When the empty string is not a superuser role, the empty subject
string is rejected: `VerifySubject(t, "", ExtractEvalTenant)` is `false` for every
non-empty required tenant `t`, and
`VerifySubjectBasedOnTopic(topicFN, "", ExtractEvalTenant)` is `false` for every
topic name. -/
theorem empty_subject_rejected (SuperRoles : List Str) (h : ([] : Str) ∉ SuperRoles) :
    (∀ t : Str, t ≠ [] → VerifySubject SuperRoles t [] ExtractEvalTenant = false) ∧
    (∀ topicFN : Str,
      VerifySubjectBasedOnTopic SuperRoles topicFN [] ExtractEvalTenant = false) := by
  have hv : ∀ t : Str, t ≠ [] → VerifySubject SuperRoles t [] ExtractEvalTenant = false := by
    intro t ht
    have he : ExtractEvalTenant t [] = false := by
      simp [ExtractEvalTenant, Split, Join]
    simp [VerifySubject, Split, VerifySubject.loop, StrContains, h, ht, he]
  refine ⟨hv, ?_⟩
  intro topicFN
  rw [VerifySubjectBasedOnTopic_eq]
  by_cases h4 : (Split topicFN '/').length < 4
  · rw [if_pos h4]
  · by_cases h1 : ((Split topicFN '/').getD 2 []).length < 1
    · rw [if_neg h4, if_pos h1]
    · have hne : (Split topicFN '/').getD 2 [] ≠ [] := by
        intro e
        rw [e] at h1
        exact h1 (by decide)
      rw [if_neg h4, if_neg h1]
      exact hv _ hne

theorem empty_subject_rejected_witness :
    ([] : Str) ∉ ["superadmin".toList] ∧
    ((∀ t : Str, t ≠ [] →
        VerifySubject ["superadmin".toList] t [] ExtractEvalTenant = false) ∧
      (∀ topicFN : Str,
        VerifySubjectBasedOnTopic ["superadmin".toList] topicFN [] ExtractEvalTenant = false)) :=
  ⟨by decide, empty_subject_rejected ["superadmin".toList] (by decide)⟩

/-! ## Registry: deletion, the stored payload of `Update`, reachable states -/

/-- Looking up after an insertion. -/
theorem lookup_insert_ite (m : Topics) (k k1 : Str) (v : TopicConfig) :
    (m.insert k v).lookup k1 = if k1 = k then some v else m.lookup k1 := by
  by_cases h : k1 = k
  · subst h
    simp [AList.lookup_insert]
  · simp [h, AList.lookup_insert_ne h]

/-- Looking up after a deletion. -/
theorem lookup_erase_ite (m : Topics) (k k1 : Str) :
    (m.erase k).lookup k1 = if k1 = k then none else m.lookup k1 := by
  by_cases h : k1 = k
  · subst h
    simp [AList.lookup_erase]
  · simp [h, AList.lookup_erase_ne h]

theorem DeleteByKey_of_absent (s : InMemoryHandler) (K : Str) (h : s.topics.lookup K = none) :
    DeleteByKey s K = (([], some Err.DocNotFound), s) := by
  simp [DeleteByKey, h]

theorem DeleteByKey_of_present (s : InMemoryHandler) (K : Str) (stored : TopicConfig)
    (h : s.topics.lookup K = some stored) :
    DeleteByKey s K = ((K, none), { topics := s.topics.erase K }) := by
  simp [DeleteByKey, h]

theorem Update_of_present (gk : KeyFn) (now : Time) (s : InMemoryHandler) (cfg : TopicConfig)
    (K : Str) (stored : TopicConfig) (hk : getKey gk cfg = (K, none))
    (hp : s.topics.lookup K = some stored) :
    Update gk now s cfg =
      { key := K, err := none, cfg := cfg, s := { topics := s.topics.insert cfg.Key cfg } } := by
  simp [Update, hk, hp]

theorem Update_of_getKey_err (gk : KeyFn) (now : Time) (s : InMemoryHandler) (cfg : TopicConfig)
    (K : Str) (e : Err) (hk : getKey gk cfg = (K, some e)) :
    Update gk now s cfg = { key := K, err := some e, cfg := cfg, s := s } := by
  simp [Update, hk]

theorem Update_of_absent (gk : KeyFn) (now : Time) (s : InMemoryHandler) (cfg : TopicConfig)
    (K : Str) (hk : getKey gk cfg = (K, none)) (ha : s.topics.lookup K = none) :
    Update gk now s cfg = Create gk now s cfg := by
  simp [Update, hk, ha]

theorem KeyInv_empty : KeyInv NewInMemoryHandler := by
  intro k r h
  simp [NewInMemoryHandler, AList.lookup_empty] at h

theorem KeyInv_insert (s : InMemoryHandler) (v : TopicConfig) (h : KeyInv s) :
    KeyInv { topics := s.topics.insert v.Key v } := by
  intro k r hl
  rw [lookup_insert_ite] at hl
  by_cases hk : k = v.Key
  · rw [if_pos hk] at hl
    cases hl
    exact hk.symm
  · rw [if_neg hk] at hl
    exact h k r hl

theorem KeyInv_erase (s : InMemoryHandler) (K : Str) (h : KeyInv s) :
    KeyInv { topics := s.topics.erase K } := by
  intro k r hl
  rw [lookup_erase_ite] at hl
  by_cases hk : k = K
  · rw [if_pos hk] at hl
    cases hl
  · rw [if_neg hk] at hl
    exact h k r hl

theorem KeyInv_Create (gk : KeyFn) (now : Time) (s : InMemoryHandler) (cfg : TopicConfig)
    (h : KeyInv s) : KeyInv (Create gk now s cfg).s := by
  rcases hk : getKey gk cfg with ⟨K, _ | e⟩
  · rcases hl : s.topics.lookup K with _ | stored
    · rw [Create_of_absent gk now s cfg K hk hl]
      exact KeyInv_insert s { cfg with Key := K, CreatedAt := now, UpdatedAt := now } h
    · rw [Create_of_present gk now s cfg K stored hk hl]
      exact h
  · rw [Create_of_getKey_err gk now s cfg K e hk]
    exact h

theorem KeyInv_Update (gk : KeyFn) (now : Time) (s : InMemoryHandler) (cfg : TopicConfig)
    (h : KeyInv s) : KeyInv (Update gk now s cfg).s := by
  rcases hk : getKey gk cfg with ⟨K, _ | e⟩
  · rcases hl : s.topics.lookup K with _ | stored
    · rw [Update_of_absent gk now s cfg K hk hl]
      exact KeyInv_Create gk now s cfg h
    · rw [Update_of_present gk now s cfg K stored hk hl]
      exact KeyInv_insert s cfg h
  · rw [Update_of_getKey_err gk now s cfg K e hk]
    exact h

theorem KeyInv_DeleteByKey (s : InMemoryHandler) (K : Str) (h : KeyInv s) :
    KeyInv (DeleteByKey s K).2 := by
  rcases hl : s.topics.lookup K with _ | stored
  · rw [DeleteByKey_of_absent s K hl]
    exact h
  · rw [DeleteByKey_of_present s K stored hl]
    exact KeyInv_erase s K h

theorem KeyInv_Delete (gk : KeyFn) (s : InMemoryHandler) (name url : Str) (h : KeyInv s) :
    KeyInv (Delete gk s name url).2 := by
  rcases hk : gk name url with ⟨K, _ | e⟩
  · have : Delete gk s name url = DeleteByKey s K := by simp [Delete, hk]
    rw [this]
    exact KeyInv_DeleteByKey s K h
  · have : Delete gk s name url = (([], some e), s) := by simp [Delete, hk]
    rw [this]
    exact h

theorem KeyInv_apply (gk : KeyFn) (now : Time) (s : InMemoryHandler) (op : Op)
    (h : KeyInv s) : KeyInv (Op.apply gk now s op) := by
  cases op with
  | Create cfg => exact KeyInv_Create gk now s cfg h
  | Update cfg => exact KeyInv_Update gk now s cfg h
  | Delete name url => exact KeyInv_Delete gk s name url h
  | DeleteByKey K => exact KeyInv_DeleteByKey s K h

theorem KeyInv_run (gk : KeyFn) (calls : List (Time × Op)) :
    ∀ s, KeyInv s → KeyInv (run gk s calls) := by
  induction calls with
  | nil => intro s h; exact h
  | cons c rest ih =>
    intro s h
    obtain ⟨now, op⟩ := c
    exact ih _ (KeyInv_apply gk now s op h)

/-- C11. `DeleteByKey(K)` fails with `DocNotFound` exactly when `K` is absent, and
then returns the registry as it was; when `K` is present it returns `K` without
error, and in the resulting registry `K` is absent and every other key holds what
it held before. -/
theorem deleteByKey_spec (s : InMemoryHandler) (K : Str) :
    ((DeleteByKey s K).1.2 = some Err.DocNotFound ↔ s.topics.lookup K = none) ∧
    (s.topics.lookup K = none → DeleteByKey s K = (([], some Err.DocNotFound), s)) ∧
    (∀ stored, s.topics.lookup K = some stored →
      (DeleteByKey s K).1 = (K, none) ∧
      (DeleteByKey s K).2.topics.lookup K = none ∧
      (∀ k, k ≠ K → (DeleteByKey s K).2.topics.lookup k = s.topics.lookup k)) := by
  refine ⟨?_, fun h => DeleteByKey_of_absent s K h, ?_⟩
  · rcases hl : s.topics.lookup K with _ | stored
    · rw [DeleteByKey_of_absent s K hl]
      simp
    · rw [DeleteByKey_of_present s K stored hl]
      simp
  · intro stored hl
    rw [DeleteByKey_of_present s K stored hl]
    refine ⟨rfl, ?_, ?_⟩
    · simp [AList.lookup_erase]
    · intro k hk
      simp [AList.lookup_erase_ne hk]

theorem deleteByKey_spec_witness :
    (DeleteByKey storeTwo sampleK).1 = (sampleK, none) ∧
    (DeleteByKey storeTwo sampleK).2.topics.lookup sampleK = none ∧
    (∀ k, k ≠ sampleK →
      (DeleteByKey storeTwo sampleK).2.topics.lookup k = storeTwo.topics.lookup k) :=
  (deleteByKey_spec storeTwo sampleK).2.2
    { sampleCfg with Key := sampleK, CreatedAt := 5, UpdatedAt := 5 } (by decide)

/-- C14. A registry reached from the empty one, along a clock that never goes
back, by creating `sampleCfg` and then updating it with a payload whose
`CreatedAt` is 10 and whose `UpdatedAt` is the zero value: the payload is stored
as submitted, and the stored record has `CreatedAt` after `UpdatedAt`. -/
theorem reachable_createdAt_after_updatedAt :
    clockMonotone
      [(5, Op.Create sampleCfg), (9, Op.Update { sampleCfg with CreatedAt := 10 })] = true ∧
    (run sampleKey NewInMemoryHandler
      [(5, Op.Create sampleCfg),
       (9, Op.Update { sampleCfg with CreatedAt := 10 })]).topics.lookup [] =
      some { sampleCfg with CreatedAt := 10 } ∧
    ¬ (GetByKey (run sampleKey NewInMemoryHandler
        [(5, Op.Create sampleCfg), (9, Op.Update { sampleCfg with CreatedAt := 10 })])
        []).1.CreatedAt ≤
      (GetByKey (run sampleKey NewInMemoryHandler
        [(5, Op.Create sampleCfg), (9, Op.Update { sampleCfg with CreatedAt := 10 })])
        []).1.UpdatedAt := by
  decide

/-- C15. `Update` on an existing key does not mutate in place.  With a payload
that carries no key, the registry gains the key `""` and the record under the
derived key is left as it was; with a payload that carries the key of another
record, that other record is replaced by the payload. -/
theorem update_existing_not_in_place :
    storeTwo.topics.keys = [otherK, sampleK] ∧
    (Update sampleKey 9 storeTwo { sampleCfg with Token := "new".toList }).err = none ∧
    (Update sampleKey 9 storeTwo { sampleCfg with Token := "new".toList }).s.topics.keys =
      [[], otherK, sampleK] ∧
    (Update sampleKey 9 storeTwo { sampleCfg with Token := "new".toList }).s.topics.lookup
      sampleK = storeTwo.topics.lookup sampleK ∧
    (Update sampleKey 9 storeTwo { sampleCfg with Key := otherK }).key = sampleK ∧
    storeTwo.topics.lookup otherK =
      some { otherCfg with Key := otherK, CreatedAt := 6, UpdatedAt := 6 } ∧
    (Update sampleKey 9 storeTwo { sampleCfg with Key := otherK }).s.topics.lookup otherK =
      some { sampleCfg with Key := otherK } := by
  decide

/-- C18. When the key `K` derived from `cfg` is present, `Update(cfg)` returns `K`
without error and the resulting registry is the original one with `cfg` itself
stored under `cfg.Key`: that key holds exactly `cfg` (with the `CreatedAt` and
`UpdatedAt` of `cfg`), every other key holds what it held before, and neither the
stored record nor the clock has any effect on the result. -/
theorem update_existing_stores_payload (gk : KeyFn) (now : Time) (s : InMemoryHandler)
    (cfg : TopicConfig) (K : Str) (stored : TopicConfig) (hk : getKey gk cfg = (K, none))
    (hp : s.topics.lookup K = some stored) :
    (Update gk now s cfg).key = K ∧ (Update gk now s cfg).err = none ∧
    (Update gk now s cfg).s = { topics := s.topics.insert cfg.Key cfg } ∧
    (Update gk now s cfg).s.topics.lookup cfg.Key = some cfg ∧
    (∀ k, k ≠ cfg.Key → (Update gk now s cfg).s.topics.lookup k = s.topics.lookup k) ∧
    (cfg.Key ≠ K → (Update gk now s cfg).s.topics.lookup K = some stored) := by
  rw [Update_of_present gk now s cfg K stored hk hp]
  refine ⟨rfl, rfl, rfl, ?_, ?_, ?_⟩
  · simp [AList.lookup_insert]
  · intro k hne
    simp [AList.lookup_insert_ne hne]
  · intro hne
    simp [AList.lookup_insert_ne (Ne.symm hne), hp]

theorem update_existing_stores_payload_witness :
    getKey sampleKey { sampleCfg with Token := "new".toList } = (sampleK, none) ∧
    storeOne.topics.lookup sampleK =
      some { sampleCfg with Key := sampleK, CreatedAt := 5, UpdatedAt := 5 } ∧
    (Update sampleKey 9 storeOne { sampleCfg with Token := "new".toList }).s =
      { topics := storeOne.topics.insert [] { sampleCfg with Token := "new".toList } } :=
  ⟨by decide, by decide,
    (update_existing_stores_payload sampleKey 9 storeOne { sampleCfg with Token := "new".toList }
      sampleK { sampleCfg with Key := sampleK, CreatedAt := 5, UpdatedAt := 5 }
      (by decide) (by decide)).2.2.1⟩

/-- C19. In every registry reached from the empty one by a sequence of `Create`,
`Update`, `Delete` and `DeleteByKey` calls, every stored record has in its `Key`
field the key it is stored under; hence a `GetByKey(K)` that succeeds returns a
record whose `Key` is `K`. -/
theorem reachable_key_field (gk : KeyFn) (calls : List (Time × Op)) :
    (∀ k r, (run gk NewInMemoryHandler calls).topics.lookup k = some r → r.Key = k) ∧
    (∀ K, (GetByKey (run gk NewInMemoryHandler calls) K).2 = none →
      (GetByKey (run gk NewInMemoryHandler calls) K).1.Key = K) := by
  have hinv : KeyInv (run gk NewInMemoryHandler calls) :=
    KeyInv_run gk calls NewInMemoryHandler KeyInv_empty
  refine ⟨hinv, ?_⟩
  intro K hK
  rcases hl : (run gk NewInMemoryHandler calls).topics.lookup K with _ | r
  · simp [GetByKey, hl] at hK
  · simp only [GetByKey, hl]
    exact hinv K r hl

theorem reachable_key_field_witness :
    (GetByKey (run sampleKey NewInMemoryHandler
      [(5, Op.Create sampleCfg), (9, Op.Update { sampleCfg with Token := "new".toList })])
      sampleK).1.Key = sampleK :=
  (reachable_key_field sampleKey
    [(5, Op.Create sampleCfg), (9, Op.Update { sampleCfg with Token := "new".toList })]).2
    sampleK (by decide)

/-! ## `Load` -/

/-- The loop of `Load` appends one pointer per entry and leaves in `v` the record
visited last. -/
theorem Load_range_eq (es : List (Sigma fun _ : Str => TopicConfig)) (v : TopicConfig)
    (n : Nat) :
    Load.range es (v, n) = (((es.map fun e => e.2).getLast?).getD v, n + es.length) := by
  induction es generalizing v n with
  | nil => simp [Load.range]
  | cons e rest ih =>
    rw [Load.range, ih]
    cases rest with
    | nil => simp
    | cons e2 rest2 =>
      simp only [List.map_cons, List.getLast?_cons_cons, List.length_cons, Prod.mk.injEq]
      refine ⟨?_, by omega⟩
      rw [List.getLast?_eq_getLast _ (List.cons_ne_nil _ _)]
      rfl

/-- `Load` returns no error and as many pointers as there are entries, and every
one of them reads the record visited last. -/
theorem Load_eq_replicate (s : InMemoryHandler) :
    Load s = (List.replicate s.topics.entries.length
      (((Load.spec s).getLast?).getD TopicConfig.zero), none) := by
  simp [Load, Load.spec, Load_range_eq]

/-- C16. On the registry holding the two records created from `sampleCfg` and
`otherCfg`, `Load` returns no error and two elements, and both read the same
record: the other stored record is not among them, so the result is not a
rearrangement of the stored records. -/
theorem load_repeats_last_record :
    Load.spec storeTwo =
      [{ otherCfg with Key := otherK, CreatedAt := 6, UpdatedAt := 6 },
       { sampleCfg with Key := sampleK, CreatedAt := 5, UpdatedAt := 5 }] ∧
    Load storeTwo =
      ([{ sampleCfg with Key := sampleK, CreatedAt := 5, UpdatedAt := 5 },
        { sampleCfg with Key := sampleK, CreatedAt := 5, UpdatedAt := 5 }], none) ∧
    { otherCfg with Key := otherK, CreatedAt := 6, UpdatedAt := 6 } ∉ (Load storeTwo).1 ∧
    ¬ (Load storeTwo).1.Perm (Load.spec storeTwo) := by
  refine ⟨by decide, by decide, by decide, ?_⟩
  intro hperm
  have hmem : { otherCfg with Key := otherK, CreatedAt := 6, UpdatedAt := 6 } ∈
      (Load storeTwo).1 := hperm.mem_iff.2 (by decide)
  exact absurd hmem (by decide)

/-! ## The topic handlers -/

theorem GetByKey_of_absent (s : InMemoryHandler) (K : Str) (h : s.topics.lookup K = none) :
    GetByKey s K = (TopicConfig.zero, some Err.DocNotFound) := by
  simp [GetByKey, h]

theorem GetByKey_of_present (s : InMemoryHandler) (K : Str) (stored : TopicConfig)
    (h : s.topics.lookup K = some stored) : GetByKey s K = (stored, none) := by
  simp [GetByKey, h]

/-- A read or delete request for a key that is absent is answered `404`. -/
theorem GetTopicHandler_of_absent (env : Env) (s : InMemoryHandler) (r : Request TopicKey)
    (K : Str) (hk : GetTopicKey env r = (K, none)) (ha : s.topics.lookup K = none) :
    GetTopicHandler env s r =
      ([WriterCall.ResponseErrorJSON Err.DocNotFound StatusNotFound], s) := by
  simp [GetTopicHandler, hk, GetByKey_of_absent s K ha]

theorem DeleteTopicHandler_of_absent (env : Env) (s : InMemoryHandler) (r : Request TopicKey)
    (K : Str) (hk : GetTopicKey env r = (K, none)) (ha : s.topics.lookup K = none) :
    DeleteTopicHandler env s r =
      ([WriterCall.ResponseErrorJSON Err.DocNotFound StatusNotFound], s) := by
  simp [DeleteTopicHandler, hk, GetByKey_of_absent s K ha]

/-- A read or delete request for a stored record the caller is not authorized for
is answered `403`, and the registry is the one before the request. -/
theorem GetTopicHandler_of_forbidden (env : Env) (s : InMemoryHandler) (r : Request TopicKey)
    (K : Str) (stored : TopicConfig) (hk : GetTopicKey env r = (K, none))
    (hp : s.topics.lookup K = some stored)
    (hv : VerifySubjectBasedOnTopic env.SuperRoles stored.TopicFullName r.injectedSubs
      ExtractEvalTenant = false) :
    GetTopicHandler env s r = ([WriterCall.WriteHeader StatusForbidden], s) := by
  simp [GetTopicHandler, hk, GetByKey_of_present s K stored hp, hv]

theorem DeleteTopicHandler_of_forbidden (env : Env) (s : InMemoryHandler)
    (r : Request TopicKey) (K : Str) (stored : TopicConfig)
    (hk : GetTopicKey env r = (K, none)) (hp : s.topics.lookup K = some stored)
    (hv : VerifySubjectBasedOnTopic env.SuperRoles stored.TopicFullName r.injectedSubs
      ExtractEvalTenant = false) :
    DeleteTopicHandler env s r = ([WriterCall.WriteHeader StatusForbidden], s) := by
  simp [DeleteTopicHandler, hk, GetByKey_of_present s K stored hp, hv]

/-- A read request by an authorized caller is never answered `403`. -/
theorem GetTopicHandler_of_allowed (env : Env) (s : InMemoryHandler) (r : Request TopicKey)
    (K : Str) (stored : TopicConfig) (hk : GetTopicKey env r = (K, none))
    (hp : s.topics.lookup K = some stored)
    (hv : VerifySubjectBasedOnTopic env.SuperRoles stored.TopicFullName r.injectedSubs
      ExtractEvalTenant = true) :
    sends StatusForbidden (GetTopicHandler env s r).1 = false := by
  rcases hm : env.MarshalTopicConfig stored with ⟨b, _ | e⟩ <;>
    simp [GetTopicHandler, hk, GetByKey_of_present s K stored hp, hv, hm, sends,
      StatusForbidden, StatusOK, StatusInternalServerError]

/-- A delete request by an authorized caller is never answered `403`. -/
theorem DeleteTopicHandler_of_allowed (env : Env) (s : InMemoryHandler)
    (r : Request TopicKey) (K : Str) (stored : TopicConfig)
    (hk : GetTopicKey env r = (K, none)) (hp : s.topics.lookup K = some stored)
    (hv : VerifySubjectBasedOnTopic env.SuperRoles stored.TopicFullName r.injectedSubs
      ExtractEvalTenant = true) :
    sends StatusForbidden (DeleteTopicHandler env s r).1 = false := by
  rcases hm : env.MarshalString K with ⟨b, _ | e⟩ <;>
    simp [DeleteTopicHandler, hk, GetByKey_of_present s K stored hp, hv,
      DeleteByKey_of_present s K stored hp, hm, sends,
      StatusForbidden, StatusOK, StatusInternalServerError]

/-- C12. For a read or delete request whose topic key `K` is well formed: when `K`
is absent the handler answers `404` with `DocNotFound`, whatever the caller's
subjects, and does not answer `403`; and it answers `403` exactly when `K` is
present and `VerifySubjectBasedOnTopic` rejects the caller on the stored record's
`TopicFullName`. -/
theorem notFound_before_forbidden (env : Env) (s : InMemoryHandler) (r : Request TopicKey)
    (K : Str) (hk : GetTopicKey env r = (K, none)) :
    (s.topics.lookup K = none →
      GetTopicHandler env s r =
        ([WriterCall.ResponseErrorJSON Err.DocNotFound StatusNotFound], s) ∧
      DeleteTopicHandler env s r =
        ([WriterCall.ResponseErrorJSON Err.DocNotFound StatusNotFound], s) ∧
      sends StatusForbidden (GetTopicHandler env s r).1 = false ∧
      sends StatusForbidden (DeleteTopicHandler env s r).1 = false) ∧
    (sends StatusForbidden (GetTopicHandler env s r).1 = true ↔
      ∃ stored, s.topics.lookup K = some stored ∧
        VerifySubjectBasedOnTopic env.SuperRoles stored.TopicFullName r.injectedSubs
          ExtractEvalTenant = false) ∧
    (sends StatusForbidden (DeleteTopicHandler env s r).1 = true ↔
      ∃ stored, s.topics.lookup K = some stored ∧
        VerifySubjectBasedOnTopic env.SuperRoles stored.TopicFullName r.injectedSubs
          ExtractEvalTenant = false) := by
  have hno : sends StatusForbidden
      [WriterCall.ResponseErrorJSON Err.DocNotFound StatusNotFound] = false := by decide
  have hyes : sends StatusForbidden [WriterCall.WriteHeader StatusForbidden] = true := by
    decide
  refine ⟨?_, ?_, ?_⟩
  · intro ha
    rw [GetTopicHandler_of_absent env s r K hk ha, DeleteTopicHandler_of_absent env s r K hk ha]
    exact ⟨rfl, rfl, hno, hno⟩
  · rcases hl : s.topics.lookup K with _ | stored
    · rw [GetTopicHandler_of_absent env s r K hk hl]
      simp [hno]
    · cases hv : VerifySubjectBasedOnTopic env.SuperRoles stored.TopicFullName r.injectedSubs
        ExtractEvalTenant
      · rw [GetTopicHandler_of_forbidden env s r K stored hk hl hv]
        simp [hyes, hv]
      · rw [GetTopicHandler_of_allowed env s r K stored hk hl hv]
        simp [hv]
  · rcases hl : s.topics.lookup K with _ | stored
    · rw [DeleteTopicHandler_of_absent env s r K hk hl]
      simp [hno]
    · cases hv : VerifySubjectBasedOnTopic env.SuperRoles stored.TopicFullName r.injectedSubs
        ExtractEvalTenant
      · rw [DeleteTopicHandler_of_forbidden env s r K stored hk hl hv]
        simp [hyes, hv]
      · rw [DeleteTopicHandler_of_allowed env s r K stored hk hl hv]
        simp [hv]

theorem notFound_before_forbidden_witness :
    GetTopicKey sampleEnv
      { topicKey := some otherK, body := Decoded.eof, injectedSubs := "superuser".toList } =
      (otherK, none) ∧
    GetTopicHandler sampleEnv storeOne
      { topicKey := some otherK, body := Decoded.eof, injectedSubs := "superuser".toList } =
      ([WriterCall.ResponseErrorJSON Err.DocNotFound StatusNotFound], storeOne) :=
  ⟨by decide,
    ((notFound_before_forbidden sampleEnv storeOne
      { topicKey := some otherK, body := Decoded.eof, injectedSubs := "superuser".toList }
      otherK (by decide)).1 (by decide)).1⟩

/-- An update request whose payload names a topic the caller is not authorized for
leaves the registry as it was, whether or not the payload passes validation. -/
theorem UpdateTopicHandler_frame (env : Env) (now : Time) (s : InMemoryHandler)
    (r : Request TopicConfig) (doc : TopicConfig) (hb : r.body = Decoded.ok doc)
    (hv : VerifySubjectBasedOnTopic env.SuperRoles doc.TopicFullName r.injectedSubs
      ExtractEvalTenant = false) :
    (UpdateTopicHandler env now s r).2 = s := by
  rcases hval : env.ValidateTopicConfig doc with _ | e <;>
    simp [UpdateTopicHandler, hb, hval, hv]

/-- C13. When the authorization check of a handler fails, the handler answers
`403` and nothing else, and the registry after the request is the registry before
it.  For `GetTopicHandler` and `DeleteTopicHandler` the check is made on the
`TopicFullName` of the record stored under the request's key; for
`UpdateTopicHandler` it is made on the `TopicFullName` of the decoded, validated
payload, and the registry is unchanged also when the payload fails validation. -/
theorem forbidden_leaves_registry (env : Env) (now : Time) (s : InMemoryHandler) :
    (∀ (r : Request TopicKey) (K : Str) (stored : TopicConfig),
      GetTopicKey env r = (K, none) → s.topics.lookup K = some stored →
      VerifySubjectBasedOnTopic env.SuperRoles stored.TopicFullName r.injectedSubs
        ExtractEvalTenant = false →
      GetTopicHandler env s r = ([WriterCall.WriteHeader StatusForbidden], s) ∧
      DeleteTopicHandler env s r = ([WriterCall.WriteHeader StatusForbidden], s)) ∧
    (∀ (r : Request TopicConfig) (doc : TopicConfig),
      r.body = Decoded.ok doc →
      VerifySubjectBasedOnTopic env.SuperRoles doc.TopicFullName r.injectedSubs
        ExtractEvalTenant = false →
      (UpdateTopicHandler env now s r).2 = s ∧
      (env.ValidateTopicConfig doc = none →
        UpdateTopicHandler env now s r = ([WriterCall.WriteHeader StatusForbidden], s))) := by
  constructor
  · intro r K stored hk hp hv
    exact ⟨GetTopicHandler_of_forbidden env s r K stored hk hp hv,
      DeleteTopicHandler_of_forbidden env s r K stored hk hp hv⟩
  · intro r doc hb hv
    refine ⟨UpdateTopicHandler_frame env now s r doc hb hv, ?_⟩
    intro hval
    simp [UpdateTopicHandler, hb, hval, hv]

theorem forbidden_leaves_registry_witness :
    (DeleteTopicHandler sampleEnv storeTwo
        { topicKey := some otherK, body := Decoded.eof, injectedSubs := "acme-prod".toList } =
      ([WriterCall.WriteHeader StatusForbidden], storeTwo)) ∧
    (UpdateTopicHandler sampleEnv 9 storeTwo
        { topicKey := none, body := Decoded.ok { otherCfg with Token := "stolen".toList },
          injectedSubs := "acme-prod".toList } =
      ([WriterCall.WriteHeader StatusForbidden], storeTwo)) :=
  ⟨((forbidden_leaves_registry sampleEnv 9 storeTwo).1
      { topicKey := some otherK, body := Decoded.eof, injectedSubs := "acme-prod".toList }
      otherK { otherCfg with Key := otherK, CreatedAt := 6, UpdatedAt := 6 }
      (by decide) (by decide) (by decide)).2,
   ((forbidden_leaves_registry sampleEnv 9 storeTwo).2
      { topicKey := none, body := Decoded.ok { otherCfg with Token := "stolen".toList },
        injectedSubs := "acme-prod".toList }
      { otherCfg with Token := "stolen".toList } rfl (by decide)).2 rfl⟩

/-- C20. On the registry holding the records of tenant `acme` and of tenant
`other`, a caller with subject `acme-prod`, authorized for the `acme` topic and not
for the `other` one, submits to `UpdateTopicHandler` the `acme` payload with the
`Key` field set to the key of the `other` record: the request is answered `201`
and the record of tenant `other` is replaced by the payload. -/
theorem update_handler_overwrites_other_tenant :
    let r : Request TopicConfig :=
      { topicKey := none, body := Decoded.ok { sampleCfg with Key := otherK },
        injectedSubs := "acme-prod".toList }
    storeTwo.topics.lookup otherK =
      some { otherCfg with Key := otherK, CreatedAt := 6, UpdatedAt := 6 } ∧
    VerifySubjectBasedOnTopic sampleEnv.SuperRoles otherCfg.TopicFullName r.injectedSubs
      ExtractEvalTenant = false ∧
    VerifySubjectBasedOnTopic sampleEnv.SuperRoles sampleCfg.TopicFullName r.injectedSubs
      ExtractEvalTenant = true ∧
    sends StatusCreated (UpdateTopicHandler sampleEnv 9 storeTwo r).1 = true ∧
    (UpdateTopicHandler sampleEnv 9 storeTwo r).2.topics.lookup otherK =
      some { sampleCfg with Key := otherK } := by
  decide

end PulsarBeam
